import Mathlib

/-!
Shallow embedding of the cartera-analysis program (src/app.py).

Rows of the spreadsheet become the structure `Registro`; the three
categorical recodings of `cargar_datos`, the filter block building
`df_filtrado`, the `groupby('NIU')` aggregation `agrupado`, the KPI
`promedio`, the `nlargest(10, 'SALDO_CARTERA')` table and the currency
formatter `formato_pesos` become Lean functions over lists of rows.
Some column names are abbreviated: `DESCRIPCION_MUNICIPIO` is written
`DESC_MUNIC`, `CLASE_SERVICIO` is written `CLASE_SERV`, and
`CODIGO_DEL_SERVICIO` is written `COD_SERV`.  Balances are modelled as
rationals.
-/

namespace Cartera

/-- One row of the source table after the header has been read. -/
structure Registro where
  NIU : String
  NOMBRE : String
  DIRECCION : String
  DESC_MUNIC : String
  CICLO : String
  CLASE_SERV : String
  EDAD : String
  COD_SERV : String
  SALDO_CARTERA : ℚ
deriving DecidableEq, Repr

/-- Whitespace characters removed by the `str.strip()` calls. -/
def esBlanco (c : Char) : Bool :=
  c = ' ' || c = '\t' || c = '\n' || c = '\r' ||
    c = Char.ofNat 11 || c = Char.ofNat 12

/-- The `str.strip()` of `cargar_datos`: remove leading and trailing
whitespace from the string-cast cell value. -/
def recorta (s : String) : String :=
  (((s.data.dropWhile esBlanco).reverse.dropWhile esBlanco).reverse).asString

/-- Replacement dictionary `reemplazos_servicio` of `cargar_datos`:
the nine known class codes and their labels; `none` elsewhere. -/
def reemplazosServ (s : String) : Option String :=
  if s = "1" then some "Residencial"
  else if s = "2" then some "Comercial"
  else if s = "3" then some "Industrial"
  else if s = "4" then some "Oficial"
  else if s = "5" then some "Alumbrado Público"
  else if s = "6" then some "Especial"
  else if s = "7" then some "Provisional"
  else if s = "10" then some "Área Común"
  else if s = "11" then some "Autoconsumo"
  else none

/-- Recoding of the column `CLASE_SERVICIO`: cast to string, strip,
replace by the dictionary, and leave every other value as it is
(`Series.replace` keeps values that match no key). -/
def cambiaClase (s : String) : String :=
  (reemplazosServ (recorta s)).getD (recorta s)

/-- Replacement dictionary `reemplazos_edad` of `cargar_datos`. -/
def reemplazosEdad (s : String) : Option String :=
  if s = "0" then some "Corriente"
  else if s = "1" then some "1 a 30 Días"
  else if s = "2" then some "31 a 60 Días"
  else if s = "3" then some "61 a 90 Días"
  else if s = "4" then some "91 a 120 Días"
  else if s = "5" then some "121 a 150 Días"
  else if s = "6" then some "151 a 180 Días"
  else none

/-- The values of `reemplazos_edad`, the seven aging labels. -/
def etiquetasEdad : List String :=
  ["Corriente", "1 a 30 Días", "31 a 60 Días", "61 a 90 Días",
   "91 a 120 Días", "121 a 150 Días", "151 a 180 Días"]

/-- Recoding of the column `EDAD`: cast to string, strip, replace by
the dictionary, then the lambda of line 61 of app.py sends every
resulting value that is not one of the seven labels to the overflow
label. -/
def cambiaEdad (s : String) : String :=
  let r := (reemplazosEdad (recorta s)).getD (recorta s)
  if etiquetasEdad.contains r then r else "> a 180 Días"

/-- Replacement dictionary `reemplazos_codigo` of `cargar_datos`. -/
def reemplazosCod (s : String) : Option String :=
  if s = "601" then some "Energía"
  else if s = "603" then some "Somos"
  else if s = "609" then some "Terceros"
  else none

/-- Recoding of the column `CODIGO_DEL_SERVICIO`: cast to string,
strip, replace by the dictionary; unknown codes pass through. -/
def cambiaCod (s : String) : String :=
  (reemplazosCod (recorta s)).getD (recorta s)

/-- Insert the thousands separator into a reversed digit string:
after every three characters that still have a fourth behind them a
point is placed.  Applied to the reversed decimal digits and reversed
back this is exactly what `f-string` grouping plus
`.replace(",", ".")` produces in `formato_pesos`. -/
def sepMilesRev : List Char → List Char
  | a :: b :: c :: d :: resto => a :: b :: c :: '.' :: sepMilesRev (d :: resto)
  | l => l

/-- Decimal digits of a natural number grouped in threes with points. -/
def agrupaMiles (n : ℕ) : String :=
  ((sepMilesRev (Nat.repr n).toList.reverse).reverse).asString

/-- Rounding to the nearest integer with ties to even, the rounding
`format(valor, ",.0f")` performs in Python. -/
def roundHalfEven (q : ℚ) : ℤ :=
  if q - ⌊q⌋ < 1/2 then ⌊q⌋
  else if 1/2 < q - ⌊q⌋ then ⌊q⌋ + 1
  else if ⌊q⌋ % 2 = 0 then ⌊q⌋ else ⌊q⌋ + 1

/-- The function `formato_pesos` of app.py: round to zero decimals,
group thousands with points, place the currency sign in front. -/
def formato_pesos (valor : ℚ) : String :=
  let n := roundHalfEven valor
  (if n < 0 then "$-" else "$") ++ agrupaMiles n.natAbs

/-- The selections staged in the sidebar of tab 1: five multiselect
lists and the optional single NIU (the empty string is the unselected
default of the selectbox). -/
structure Filtros where
  municipios : List String
  ciclos : List String
  clases : List String
  edades : List String
  servicios : List String
  niu : String

/-- The state in which no filter value has been selected. -/
def filtrosVacios : Filtros :=
  { municipios := [], ciclos := [], clases := [], edades := [],
    servicios := [], niu := "" }

/-- The filter block of lines 100 to 107 of app.py: starting from a
copy of the table, each field with a non-empty selection keeps the
rows whose value belongs to the selection, and a non-empty NIU keeps
the rows whose NIU equals it. -/
def df_filtrado (df : List Registro) (f : Filtros) : List Registro :=
  let d1 := if f.municipios.isEmpty then df else
    df.filter (fun r => f.municipios.contains r.DESC_MUNIC)
  let d2 := if f.ciclos.isEmpty then d1 else
    d1.filter (fun r => f.ciclos.contains r.CICLO)
  let d3 := if f.clases.isEmpty then d2 else
    d2.filter (fun r => f.clases.contains r.CLASE_SERV)
  let d4 := if f.edades.isEmpty then d3 else
    d3.filter (fun r => f.edades.contains r.EDAD)
  let d5 := if f.servicios.isEmpty then d4 else
    d4.filter (fun r => f.servicios.contains r.COD_SERV)
  if f.niu.isEmpty then d5 else d5.filter (fun r => r.NIU == f.niu)

/-- Spec-side row predicate of the Filter Engine: conjunction over
the six fields, membership within a field, empty selection means no
constraint. -/
def cumpleFiltros (f : Filtros) (r : Registro) : Bool :=
  (f.municipios.isEmpty || f.municipios.contains r.DESC_MUNIC)
  && (f.ciclos.isEmpty || f.ciclos.contains r.CICLO)
  && (f.clases.isEmpty || f.clases.contains r.CLASE_SERV)
  && (f.edades.isEmpty || f.edades.contains r.EDAD)
  && (f.servicios.isEmpty || f.servicios.contains r.COD_SERV)
  && (f.niu.isEmpty || r.NIU == f.niu)

/-- Keys of `groupby('NIU')`: the distinct NIU values in ascending
order (pandas sorts group keys by default). -/
def clavesNIU (df : List Registro) : List String :=
  List.insertionSort (fun a b => a ≤ b) (df.map Registro.NIU).dedup

/-- The rows of one NIU group, in the order of the filtered view. -/
def grupo (df : List Registro) (k : String) : List Registro :=
  df.filter (fun r => r.NIU == k)

/-- One output row of the main-tab aggregation `agrupado`. -/
structure Agregado where
  NIU : String
  SALDO_CARTERA : ℚ
  NOMBRE : String
  DIRECCION : String
  DESC_MUNIC : String
  CICLO : String
  EDAD : String
  COD_SERV : String
deriving DecidableEq, Repr

/-- The aggregation function `first` of pandas: the value of the
field in the first row of the group. -/
def primerValor (g : List Registro) (campo : Registro → String) : String :=
  match g with
  | [] => ""
  | r :: _ => campo r

/-- The aggregated row of one NIU: `SALDO_CARTERA` summed, the six
descriptive fields taken from the first row of the group. -/
def filaAgregada (df : List Registro) (k : String) : Agregado :=
  let g := grupo df k
  { NIU := k
    SALDO_CARTERA := (g.map Registro.SALDO_CARTERA).sum
    NOMBRE := primerValor g Registro.NOMBRE
    DIRECCION := primerValor g Registro.DIRECCION
    DESC_MUNIC := primerValor g Registro.DESC_MUNIC
    CICLO := primerValor g Registro.CICLO
    EDAD := primerValor g Registro.EDAD
    COD_SERV := primerValor g Registro.COD_SERV }

/-- Lines 110 to 118 of app.py: `groupby('NIU').agg(...)`, one row
per distinct NIU, keys in ascending order. -/
def agrupado (df : List Registro) : List Agregado :=
  (clavesNIU df).map (filaAgregada df)

/-- Tab 2 restriction to one selected service code (line 145). -/
def df_filtrado_serv (df : List Registro) (s : String) : List Registro :=
  df.filter (fun r => r.COD_SERV == s)

/-- KPI `saldo_total` of line 148. -/
def saldo_total (df : List Registro) (s : String) : ℚ :=
  ((df_filtrado_serv df s).map Registro.SALDO_CARTERA).sum

/-- KPI `clientes_unicos` of line 149, the number of distinct NIU. -/
def clientes_unicos (df : List Registro) (s : String) : ℕ :=
  ((df_filtrado_serv df s).map Registro.NIU).dedup.length

/-- KPI `promedio` of line 150, guarded against a zero count. -/
def promedioCli (df : List Registro) (s : String) : ℚ :=
  if 0 < clientes_unicos df s then saldo_total df s / clientes_unicos df s
  else 0

/-- Comparison used by `nlargest(10, 'SALDO_CARTERA')`: a row weighs
at least as much as another when its balance is at least as large. -/
def pesaMas (a b : Registro) : Prop :=
  b.SALDO_CARTERA ≤ a.SALDO_CARTERA

instance : DecidableRel pesaMas := fun a b =>
  inferInstanceAs (Decidable (b.SALDO_CARTERA ≤ a.SALDO_CARTERA))

/-- Line 206 of app.py: the ten rows of largest balance; a stable
descending sort followed by taking the first ten rows. -/
def top10 (df : List Registro) : List Registro :=
  (List.insertionSort pesaMas df).take 10

/-- Lexicographic comparison on position-tagged rows: larger balance
first, and among equal balances the smaller original position first.
This is the spec-side statement of a stable descending selection. -/
def pesaMasIdx (a b : ℕ × Registro) : Prop :=
  b.2.SALDO_CARTERA < a.2.SALDO_CARTERA ∨
    (a.2.SALDO_CARTERA = b.2.SALDO_CARTERA ∧ a.1 ≤ b.1)

instance : DecidableRel pesaMasIdx := fun a b =>
  inferInstanceAs (Decidable (b.2.SALDO_CARTERA < a.2.SALDO_CARTERA ∨
    (a.2.SALDO_CARTERA = b.2.SALDO_CARTERA ∧ a.1 ≤ b.1)))

/-- The comparison `pesaMas` read through the row component of a
position-tagged row. -/
def pesaMasPar (a b : ℕ × Registro) : Prop :=
  b.2.SALDO_CARTERA ≤ a.2.SALDO_CARTERA

instance : DecidableRel pesaMasPar := fun a b =>
  inferInstanceAs (Decidable (b.2.SALDO_CARTERA ≤ a.2.SALDO_CARTERA))

instance : IsTotal Registro pesaMas :=
  ⟨fun a b => le_total b.SALDO_CARTERA a.SALDO_CARTERA⟩

instance : IsTrans Registro pesaMas :=
  ⟨fun _ _ _ hab hbc => le_trans hbc hab⟩

/-- Spec-side top ten: tag every row with its original position, sort
by the lexicographic comparison, drop the tags, take ten. -/
def top10Estable (df : List Registro) : List Registro :=
  ((List.insertionSort pesaMasIdx df.enum).map Prod.snd).take 10

/-- A two-row table with a repeated NIU, used to instantiate the
universally quantified theorems on concrete data. -/
def dfPar : List Registro :=
  [⟨"1", "Ana", "Calle 1", "Armenia", "C1", "Residencial", "Corriente", "Energía", 100⟩,
   ⟨"1", "Benito", "Calle 2", "Calarcá", "C2", "Comercial", "1 a 30 Días", "Energía", 200⟩]

/-- An eleven-row table, used to instantiate the top-ten theorem. -/
def dfOnce : List Registro :=
  [⟨"1", "A", "D1", "M", "C", "Residencial", "Corriente", "Energía", 100⟩,
   ⟨"2", "B", "D2", "M", "C", "Residencial", "Corriente", "Energía", 300⟩,
   ⟨"3", "C", "D3", "M", "C", "Residencial", "Corriente", "Energía", 300⟩,
   ⟨"4", "D", "D4", "M", "C", "Residencial", "Corriente", "Energía", 50⟩,
   ⟨"5", "E", "D5", "M", "C", "Residencial", "Corriente", "Energía", 700⟩,
   ⟨"6", "F", "D6", "M", "C", "Residencial", "Corriente", "Energía", 0⟩,
   ⟨"7", "G", "D7", "M", "C", "Residencial", "Corriente", "Energía", 250⟩,
   ⟨"8", "H", "D8", "M", "C", "Residencial", "Corriente", "Energía", 300⟩,
   ⟨"9", "I", "D9", "M", "C", "Residencial", "Corriente", "Energía", 40⟩,
   ⟨"10", "J", "D10", "M", "C", "Residencial", "Corriente", "Energía", 60⟩,
   ⟨"11", "K", "D11", "M", "C", "Residencial", "Corriente", "Energía", 90⟩]

theorem roundHalfEven_of_lt {q : ℚ} (h : q - ⌊q⌋ < 1/2) :
    roundHalfEven q = ⌊q⌋ := by
  rw [roundHalfEven, if_pos h]

theorem roundHalfEven_of_gt {q : ℚ} (h : 1/2 < q - ⌊q⌋) :
    roundHalfEven q = ⌊q⌋ + 1 := by
  rw [roundHalfEven, if_neg (by linarith), if_pos h]

theorem formato_pesos_of_nonneg {q : ℚ} {n : ℤ} (hn : roundHalfEven q = n)
    (h0 : 0 ≤ n) : formato_pesos q = "$" ++ agrupaMiles n.natAbs := by
  rw [formato_pesos, hn, if_neg (by omega)]

theorem abs_sub_roundHalfEven (q : ℚ) :
    |q - (roundHalfEven q : ℚ)| ≤ 1/2 := by
  have h0 : (⌊q⌋ : ℚ) ≤ q := Int.floor_le q
  have h1 : q < ⌊q⌋ + 1 := Int.lt_floor_add_one q
  unfold roundHalfEven
  split_ifs with ha hb hc
  · rw [abs_of_nonneg (by linarith)]; linarith
  · rw [abs_of_nonpos (by push_cast; linarith)]; push_cast; linarith
  · rw [abs_of_nonneg (by linarith)]; linarith
  · rw [abs_of_nonpos (by push_cast; linarith)]; push_cast; linarith

theorem digitChar_ne_coma (d : ℕ) : Nat.digitChar d ≠ ',' := by
  by_cases h : d < 16
  · interval_cases d <;> decide
  · unfold Nat.digitChar
    repeat rw [if_neg (by omega)]
    decide

theorem mem_toDigitsCore {b : ℕ} {c : Char} :
    ∀ {f n : ℕ} {ds : List Char}, c ∈ Nat.toDigitsCore b f n ds →
      c ∈ ds ∨ ∃ d, c = Nat.digitChar d := by
  intro f
  induction f with
  | zero => intro n ds h; exact Or.inl h
  | succ f ih =>
    intro n ds h
    rw [Nat.toDigitsCore] at h
    by_cases hz : n / b = 0
    · rw [if_pos hz] at h
      rcases List.mem_cons.mp h with h | h
      · exact Or.inr ⟨n % b, h⟩
      · exact Or.inl h
    · rw [if_neg hz] at h
      rcases ih h with h | h
      · rcases List.mem_cons.mp h with h | h
        · exact Or.inr ⟨n % b, h⟩
        · exact Or.inl h
      · exact Or.inr h

theorem mem_repr_no_coma {n : ℕ} {c : Char} (h : c ∈ (Nat.repr n).toList) :
    c ≠ ',' := by
  rw [Nat.repr, List.toList_asString] at h
  rcases mem_toDigitsCore h with h | ⟨d, rfl⟩
  · simp at h
  · exact digitChar_ne_coma d

theorem mem_sepMilesRev {c : Char} :
    ∀ {l : List Char}, c ∈ sepMilesRev l → c ∈ l ∨ c = '.' := by
  intro l h
  induction l using sepMilesRev.induct with
  | case1 a b cc d resto ih =>
    rw [sepMilesRev] at h
    rcases List.mem_cons.mp h with h | h
    · exact Or.inl (by simp [h])
    rcases List.mem_cons.mp h with h | h
    · exact Or.inl (by simp [h])
    rcases List.mem_cons.mp h with h | h
    · exact Or.inl (by simp [h])
    rcases List.mem_cons.mp h with h | h
    · exact Or.inr h
    · rcases ih h with h | h
      · exact Or.inl (by simp [List.mem_cons.mp h])
      · exact Or.inr h
  | case2 l hl =>
    rw [sepMilesRev] at h
    · exact Or.inl h
    · exact hl

theorem agrupaMiles_sin_coma {m : ℕ} {c : Char}
    (h : c ∈ (agrupaMiles m).toList) : c ≠ ',' := by
  rw [agrupaMiles, List.toList_asString, List.mem_reverse] at h
  rcases mem_sepMilesRev h with h | h
  · rw [List.mem_reverse] at h
    exact mem_repr_no_coma h
  · rw [h]; decide

theorem formato_pesos_sin_coma (q : ℚ) :
    ',' ∉ (formato_pesos q).toList := by
  intro h
  rw [formato_pesos] at h
  rw [String.toList] at h
  rw [String.data_append] at h
  rcases List.mem_append.mp h with h | h
  · by_cases hn : roundHalfEven q < 0
    · rw [if_pos hn] at h; simp at h
    · rw [if_neg hn] at h; simp at h
  · exact agrupaMiles_sin_coma h rfl

theorem formato_pesos_cabeza (q : ℚ) :
    (formato_pesos q).toList.head? = some '$' := by
  rw [formato_pesos, String.toList, String.data_append]
  by_cases hn : roundHalfEven q < 0
  · rw [if_pos hn]; rfl
  · rw [if_neg hn]; rfl

/-- C6: the currency formatter prints the amount rounded to the
nearest integer (ties to even, the Python rounding; the distance to
the printed integer never exceeds one half), with a point as
thousands separator, no comma and no decimal point, and a leading
currency sign: 0, 1000 and 1234567.8 print as the spec says. -/
theorem formatoPesosCorrecto :
    formato_pesos 0 = "$0" ∧ formato_pesos 1000 = "$1.000" ∧
    formato_pesos (6172839 / 5) = "$1.234.568" ∧
    (∀ q : ℚ, |q - (roundHalfEven q : ℚ)| ≤ 1/2) ∧
    (∀ q : ℚ, (formato_pesos q).toList.all (fun c => !(c == ',')) = true) ∧
    (∀ q : ℚ, (formato_pesos q).toList.head? = some '$') := by
  refine ⟨?_, ?_, ?_, abs_sub_roundHalfEven, ?_, formato_pesos_cabeza⟩
  case refine_4 =>
    intro q
    rw [List.all_eq_true]
    intro c hc
    have hne : c ≠ ',' := fun he => formato_pesos_sin_coma q (he ▸ hc)
    simp [hne]
  · have h : roundHalfEven 0 = 0 := roundHalfEven_of_lt (by norm_num)
    rw [formato_pesos_of_nonneg h le_rfl]
    decide
  · have hf : ⌊(1000 : ℚ)⌋ = 1000 := by norm_num
    have h : roundHalfEven 1000 = 1000 := by
      rw [roundHalfEven_of_lt (by rw [hf]; norm_num), hf]
    rw [formato_pesos_of_nonneg h (by norm_num)]
    decide
  · have hf : ⌊(6172839 / 5 : ℚ)⌋ = 1234567 := by
      have h5 := Rat.floor_intCast_div_natCast 6172839 5
      norm_num at h5
      convert h5 using 2
      norm_num
    have h : roundHalfEven (6172839 / 5) = 1234568 := by
      rw [roundHalfEven_of_gt (by rw [hf]; norm_num), hf]
      norm_num
    rw [formato_pesos_of_nonneg h (by norm_num)]
    decide

/-- C4: for every raw `CLASE_SERVICIO` value whose string-cast,
trimmed form is one of the nine codes 1,2,3,4,5,6,7,10,11, the
recoding returns exactly the corresponding fixed label; for every
other value the (trimmed) value is returned unchanged. -/
theorem claseRecodificada (s : String) :
    (recorta s = "1" → cambiaClase s = "Residencial") ∧
    (recorta s = "2" → cambiaClase s = "Comercial") ∧
    (recorta s = "3" → cambiaClase s = "Industrial") ∧
    (recorta s = "4" → cambiaClase s = "Oficial") ∧
    (recorta s = "5" → cambiaClase s = "Alumbrado Público") ∧
    (recorta s = "6" → cambiaClase s = "Especial") ∧
    (recorta s = "7" → cambiaClase s = "Provisional") ∧
    (recorta s = "10" → cambiaClase s = "Área Común") ∧
    (recorta s = "11" → cambiaClase s = "Autoconsumo") ∧
    (recorta s ∉ ["1", "2", "3", "4", "5", "6", "7", "10", "11"] →
      cambiaClase s = recorta s) := by
  refine ⟨fun h => ?_, fun h => ?_, fun h => ?_, fun h => ?_, fun h => ?_,
    fun h => ?_, fun h => ?_, fun h => ?_, fun h => ?_, fun h => ?_⟩
  · simp [cambiaClase, reemplazosServ, h]
  · simp [cambiaClase, reemplazosServ, h]
  · simp [cambiaClase, reemplazosServ, h]
  · simp [cambiaClase, reemplazosServ, h]
  · simp [cambiaClase, reemplazosServ, h]
  · simp [cambiaClase, reemplazosServ, h]
  · simp [cambiaClase, reemplazosServ, h]
  · simp [cambiaClase, reemplazosServ, h]
  · simp [cambiaClase, reemplazosServ, h]
  · simp only [List.mem_cons, List.not_mem_nil, or_false, not_or] at h
    obtain ⟨h1, h2, h3, h4, h5, h6, h7, h8, h9⟩ := h
    simp [cambiaClase, reemplazosServ, h1, h2, h3, h4, h5, h6, h7, h8, h9]

/-- Witness for C4: the code 10 (with surrounding blanks) maps to its
label and the unknown code 99 passes through. -/
theorem claseRecodificadaTestigo :
    cambiaClase "  10 " = "Área Común" ∧ cambiaClase " 99 " = "99" :=
  ⟨(claseRecodificada "  10 ").2.2.2.2.2.2.2.1 (by decide),
   (claseRecodificada " 99 ").2.2.2.2.2.2.2.2.2 (by decide)⟩

/-- C5: the three service codes 601, 603, 609 map to their labels and
every other (trimmed) `CODIGO_DEL_SERVICIO` value is returned
unchanged. -/
theorem codigoRecodificado (s : String) :
    (recorta s = "601" → cambiaCod s = "Energía") ∧
    (recorta s = "603" → cambiaCod s = "Somos") ∧
    (recorta s = "609" → cambiaCod s = "Terceros") ∧
    (recorta s ∉ ["601", "603", "609"] → cambiaCod s = recorta s) := by
  refine ⟨fun h => ?_, fun h => ?_, fun h => ?_, fun h => ?_⟩
  · simp [cambiaCod, reemplazosCod, h]
  · simp [cambiaCod, reemplazosCod, h]
  · simp [cambiaCod, reemplazosCod, h]
  · simp only [List.mem_cons, List.not_mem_nil, or_false, not_or] at h
    obtain ⟨h1, h2, h3⟩ := h
    simp [cambiaCod, reemplazosCod, h1, h2, h3]

/-- Witness for C5: code 601 maps to its label and code 602 passes
through unchanged. -/
theorem codigoRecodificadoTestigo :
    cambiaCod "601" = "Energía" ∧ cambiaCod "602" = "602" :=
  ⟨(codigoRecodificado "601").1 (by decide),
   (codigoRecodificado "602").2.2.2 (by decide)⟩

/-- Counterexample to C1 as stated: the raw value `Corriente` is not
one of the codes 0..6, yet the recoding does not return the overflow
label for it; it is kept unchanged, because the overflow lambda only
replaces values that are not among the seven labels. -/
theorem edadReclamoContraejemplo :
    recorta "Corriente" ∉ ["0", "1", "2", "3", "4", "5", "6"] ∧
    cambiaEdad "Corriente" = "Corriente" ∧
    ("Corriente" : String) ≠ "> a 180 Días" := by
  refine ⟨by decide, by decide, by decide⟩

/-- C1 (amended): codes 0..6 map to the seven fixed labels; every
other value becomes the overflow label unless it is already one of
the seven labels, in which case it is kept; hence the recoded column
contains only the seven labels plus the overflow label. -/
theorem edadRecodificada (s : String) :
    (recorta s = "0" → cambiaEdad s = "Corriente") ∧
    (recorta s = "1" → cambiaEdad s = "1 a 30 Días") ∧
    (recorta s = "2" → cambiaEdad s = "31 a 60 Días") ∧
    (recorta s = "3" → cambiaEdad s = "61 a 90 Días") ∧
    (recorta s = "4" → cambiaEdad s = "91 a 120 Días") ∧
    (recorta s = "5" → cambiaEdad s = "121 a 150 Días") ∧
    (recorta s = "6" → cambiaEdad s = "151 a 180 Días") ∧
    (recorta s ∉ ["0", "1", "2", "3", "4", "5", "6"] →
      recorta s ∉ etiquetasEdad → cambiaEdad s = "> a 180 Días") ∧
    (recorta s ∈ etiquetasEdad → cambiaEdad s = recorta s) ∧
    (cambiaEdad s ∈ etiquetasEdad ∨ cambiaEdad s = "> a 180 Días") := by
  refine ⟨fun h => ?_, fun h => ?_, fun h => ?_, fun h => ?_, fun h => ?_,
    fun h => ?_, fun h => ?_, fun h1 h2 => ?_, fun h => ?_, ?_⟩
  · simp [cambiaEdad, reemplazosEdad, etiquetasEdad, h]
  · simp [cambiaEdad, reemplazosEdad, etiquetasEdad, h]
  · simp [cambiaEdad, reemplazosEdad, etiquetasEdad, h]
  · simp [cambiaEdad, reemplazosEdad, etiquetasEdad, h]
  · simp [cambiaEdad, reemplazosEdad, etiquetasEdad, h]
  · simp [cambiaEdad, reemplazosEdad, etiquetasEdad, h]
  · simp [cambiaEdad, reemplazosEdad, etiquetasEdad, h]
  · simp only [List.mem_cons, List.not_mem_nil, or_false, not_or] at h1
    obtain ⟨g0, g1, g2, g3, g4, g5, g6⟩ := h1
    simp only [etiquetasEdad, List.mem_cons, List.not_mem_nil, or_false,
      not_or] at h2
    obtain ⟨e0, e1, e2, e3, e4, e5, e6⟩ := h2
    simp [cambiaEdad, reemplazosEdad, etiquetasEdad, g0, g1, g2, g3, g4,
      g5, g6, e0, e1, e2, e3, e4, e5, e6]
  · simp only [etiquetasEdad, List.mem_cons, List.not_mem_nil, or_false] at h
    rcases h with h | h | h | h | h | h | h <;>
      simp [cambiaEdad, reemplazosEdad, etiquetasEdad, h]
  · simp only [cambiaEdad]
    by_cases hc :
        etiquetasEdad.contains ((reemplazosEdad (recorta s)).getD (recorta s))
    · rw [if_pos hc]
      exact Or.inl (by simpa [List.contains, List.elem_eq_mem] using hc)
    · rw [if_neg hc]
      exact Or.inr rfl

/-- Witness for C1: the code 0 (with blanks) maps to its label, the
unknown code 9 falls into the overflow bucket, and a value already
equal to a label is kept. -/
theorem edadRecodificadaTestigo :
    cambiaEdad " 0 " = "Corriente" ∧ cambiaEdad "9" = "> a 180 Días" ∧
    cambiaEdad "1 a 30 Días" = "1 a 30 Días" :=
  ⟨(edadRecodificada " 0 ").1 (by decide),
   (edadRecodificada "9").2.2.2.2.2.2.2.1 (by decide) (by decide),
   (edadRecodificada "1 a 30 Días").2.2.2.2.2.2.2.2.1 (by decide)⟩

/-- C7: the reports-tab KPI is guarded against division by zero: the
average is total over distinct-customer count when that count is
positive, and zero when the count is zero. -/
theorem promedioSeguro (df : List Registro) (s : String) :
    (clientes_unicos df s = 0 → promedioCli df s = 0) ∧
    (0 < clientes_unicos df s →
      promedioCli df s = saldo_total df s / clientes_unicos df s ∧
      promedioCli df s * clientes_unicos df s = saldo_total df s) := by
  constructor
  · intro h
    rw [promedioCli, if_neg (by omega)]
  · intro h
    rw [promedioCli, if_pos h]
    refine ⟨rfl, ?_⟩
    rw [div_mul_cancel₀]
    exact Nat.cast_ne_zero.mpr (by omega)

/-- Witness for C7 on the two-row table, whose distinct-customer
count for the service Energía is one. -/
theorem promedioSeguroTestigo :
    0 < clientes_unicos dfPar "Energía" ∧
      (promedioCli dfPar "Energía" =
          saldo_total dfPar "Energía" / clientes_unicos dfPar "Energía" ∧
        promedioCli dfPar "Energía" * clientes_unicos dfPar "Energía" =
          saldo_total dfPar "Energía") :=
  ⟨by decide, (promedioSeguro dfPar "Energía").2 (by decide)⟩

theorem filtra_si {α : Type} (b : Bool) (p : α → Bool) (l : List α) :
    (if b then l else l.filter p) = l.filter (fun a => b || p a) := by
  cases b
  · simp
  · simp

/-- C2: the sequential filter block equals one pass with the
conjunction predicate (membership per field, empty selection means no
constraint), a row survives exactly when it is in the table and
satisfies the predicate, and the empty selection state returns the
table unchanged. -/
theorem filtradoCaracterizado (df : List Registro) (f : Filtros) :
    df_filtrado df f = df.filter (cumpleFiltros f) ∧
    (∀ r : Registro,
      r ∈ df_filtrado df f ↔ r ∈ df ∧ cumpleFiltros f r = true) ∧
    df_filtrado df filtrosVacios = df := by
  have h1 : df_filtrado df f = df.filter (cumpleFiltros f) := by
    rw [df_filtrado]
    simp only [filtra_si]
    simp only [List.filter_filter]
    apply List.filter_congr
    intro r _
    rw [cumpleFiltros]
    simp [Bool.and_assoc, Bool.and_comm, Bool.and_left_comm]
  refine ⟨h1, fun r => ?_, ?_⟩
  · rw [h1, List.mem_filter]
  · rfl

theorem suma_si_eq (a : String) (x : ℚ) (g : String → ℚ) :
    ∀ ks : List String, ks.Nodup → a ∈ ks →
      (ks.map (fun k => if k = a then x + g k else g k)).sum =
        x + (ks.map g).sum := by
  intro ks
  induction ks with
  | nil => intro _ h; simp at h
  | cons b t ih =>
    intro hnd hmem
    rw [List.nodup_cons] at hnd
    rcases List.mem_cons.mp hmem with rfl | hmem
    · rw [List.map_cons, List.sum_cons, if_pos rfl, List.map_cons,
        List.sum_cons]
      have hfix : ∀ k ∈ t, (if k = a then x + g k else g k) = g k := by
        intro k hk
        rw [if_neg]
        intro he
        exact hnd.1 (he ▸ hk)
      rw [List.map_congr_left hfix]
      ring
    · have hne : b ≠ a := by
        intro he
        exact hnd.1 (he ▸ hmem)
      rw [List.map_cons, List.sum_cons, List.map_cons, List.sum_cons,
        if_neg hne, ih hnd.2 hmem]
      ring

theorem suma_fibras (df : List Registro) :
    ∀ ks : List String, ks.Nodup → (∀ r ∈ df, r.NIU ∈ ks) →
      (ks.map (fun k => ((grupo df k).map Registro.SALDO_CARTERA).sum)).sum =
        (df.map Registro.SALDO_CARTERA).sum := by
  induction df with
  | nil =>
    intro ks _ _
    simp [grupo]
  | cons r t ih =>
    intro ks hnd hcov
    have hr : r.NIU ∈ ks := hcov r (List.mem_cons_self r t)
    have hpt : ∀ k ∈ ks,
        ((grupo (r :: t) k).map Registro.SALDO_CARTERA).sum =
          (if k = r.NIU then
            r.SALDO_CARTERA + ((grupo t k).map Registro.SALDO_CARTERA).sum
          else ((grupo t k).map Registro.SALDO_CARTERA).sum) := by
      intro k _
      by_cases hk : r.NIU = k
      · rw [if_pos hk.symm, grupo, grupo, List.filter_cons,
          if_pos (by simp [hk]), List.map_cons, List.sum_cons]
      · rw [if_neg (fun he => hk he.symm), grupo, grupo, List.filter_cons,
          if_neg (by simp [hk])]
    rw [List.map_congr_left hpt,
      suma_si_eq r.NIU r.SALDO_CARTERA _ ks hnd hr,
      ih ks hnd (fun x hx => hcov x (List.mem_cons_of_mem r hx)),
      List.map_cons, List.sum_cons]

/-- C3: summing the aggregated balances over all customer groups of
the main-tab aggregation gives the sum of the balances over all rows
of the underlying (filtered) table: the aggregation conserves the
total. -/
theorem agrupadoConservaSaldo (df : List Registro) :
    ((agrupado df).map Agregado.SALDO_CARTERA).sum =
      (df.map Registro.SALDO_CARTERA).sum := by
  rw [agrupado, List.map_map]
  have hcomp : Agregado.SALDO_CARTERA ∘ filaAgregada df =
      fun k => ((grupo df k).map Registro.SALDO_CARTERA).sum := rfl
  rw [hcomp]
  have hperm : List.Perm (clavesNIU df) ((df.map Registro.NIU).dedup) :=
    List.perm_insertionSort _ _
  rw [List.Perm.sum_eq (hperm.map _)]
  exact suma_fibras df _ (List.nodup_dedup _)
    (fun r hrm => List.mem_dedup.mpr (List.mem_map_of_mem _ hrm))

theorem find_es_cabeza_filtro (p : Registro → Bool) :
    ∀ l : List Registro, l.find? p = (l.filter p).head? := by
  intro l
  induction l with
  | nil => rfl
  | cons a t ih =>
    rw [List.find?_cons, List.filter_cons]
    by_cases hp : p a
    · rw [hp]
      simp
    · rw [Bool.not_eq_true] at hp
      rw [hp]
      show List.find? p t = (List.filter p t).head?
      exact ih

/-- C9: every row of the main-tab aggregation carries, in each of its
six descriptive fields, the value of the first row of the filtered
view that has the row's NIU (pandas `first` is first-in-view-order):
that first row is what `find?` on the NIU returns. -/
theorem primerValorGana (df : List Registro) (fila : Agregado)
    (h : fila ∈ agrupado df) :
    ∃ r : Registro, df.find? (fun x => x.NIU == fila.NIU) = some r ∧
      r ∈ df ∧ fila.NOMBRE = r.NOMBRE ∧ fila.DIRECCION = r.DIRECCION ∧
      fila.DESC_MUNIC = r.DESC_MUNIC ∧ fila.CICLO = r.CICLO ∧
      fila.EDAD = r.EDAD ∧ fila.COD_SERV = r.COD_SERV := by
  rw [agrupado] at h
  rcases List.mem_map.mp h with ⟨k, hk, rfl⟩
  have hkmem : k ∈ df.map Registro.NIU :=
    List.mem_dedup.mp ((List.mem_insertionSort _).mp hk)
  rcases List.mem_map.mp hkmem with ⟨r0, hr0, hNIU⟩
  have hr0g : r0 ∈ grupo df k := by
    rw [grupo]
    exact List.mem_filter.mpr ⟨hr0, by simp [hNIU]⟩
  obtain ⟨r, g, hg⟩ : ∃ r g, grupo df k = r :: g := by
    cases hgr : grupo df k with
    | nil => rw [hgr] at hr0g; simp at hr0g
    | cons x xs => exact ⟨x, xs, rfl⟩
  have hNIUfila : (filaAgregada df k).NIU = k := rfl
  refine ⟨r, ?_, ?_, ?_, ?_, ?_, ?_, ?_, ?_⟩
  · rw [hNIUfila, find_es_cabeza_filtro, ← grupo, hg]
    rfl
  · have : r ∈ grupo df k := by rw [hg]; exact List.mem_cons_self r g
    rw [grupo] at this
    exact (List.mem_filter.mp this).1
  · show primerValor (grupo df k) Registro.NOMBRE = r.NOMBRE
    rw [hg]
    rfl
  · show primerValor (grupo df k) Registro.DIRECCION = r.DIRECCION
    rw [hg]
    rfl
  · show primerValor (grupo df k) Registro.DESC_MUNIC = r.DESC_MUNIC
    rw [hg]
    rfl
  · show primerValor (grupo df k) Registro.CICLO = r.CICLO
    rw [hg]
    rfl
  · show primerValor (grupo df k) Registro.EDAD = r.EDAD
    rw [hg]
    rfl
  · show primerValor (grupo df k) Registro.COD_SERV = r.COD_SERV
    rw [hg]
    rfl

/-- Witness for C9 on the two-row table with a repeated NIU: the
aggregated row exists and takes its descriptive fields from the first
of the two rows. -/
theorem primerValorGanaTestigo :
    filaAgregada dfPar "1" ∈ agrupado dfPar ∧
      ∃ r : Registro,
        dfPar.find? (fun x => x.NIU == (filaAgregada dfPar "1").NIU) = some r ∧
        r ∈ dfPar ∧ (filaAgregada dfPar "1").NOMBRE = r.NOMBRE ∧
        (filaAgregada dfPar "1").DIRECCION = r.DIRECCION ∧
        (filaAgregada dfPar "1").DESC_MUNIC = r.DESC_MUNIC ∧
        (filaAgregada dfPar "1").CICLO = r.CICLO ∧
        (filaAgregada dfPar "1").EDAD = r.EDAD ∧
        (filaAgregada dfPar "1").COD_SERV = r.COD_SERV := by
  have hmem : filaAgregada dfPar "1" ∈ agrupado dfPar := by
    rw [agrupado]
    refine List.mem_map_of_mem _ ?_
    rw [clavesNIU, List.mem_insertionSort]
    decide
  exact ⟨hmem, primerValorGana dfPar (filaAgregada dfPar "1") hmem⟩

/-- C10: the main-tab aggregation has exactly one row per distinct
NIU of the underlying table, no key duplicated or dropped, and its
rows are in ascending NIU order. -/
theorem agrupadoClavesUnicas (df : List Registro) :
    ((agrupado df).map Agregado.NIU).Nodup ∧
    (∀ k : String,
      k ∈ (agrupado df).map Agregado.NIU ↔ k ∈ df.map Registro.NIU) ∧
    List.Sorted (fun a b : String => a ≤ b)
      ((agrupado df).map Agregado.NIU) := by
  have hmap : (agrupado df).map Agregado.NIU = clavesNIU df := by
    rw [agrupado, List.map_map]
    have hid : Agregado.NIU ∘ filaAgregada df = id := rfl
    rw [hid, List.map_id]
  rw [hmap]
  refine ⟨?_, ?_, ?_⟩
  · exact ((List.perm_insertionSort _ _).nodup_iff).mpr (List.nodup_dedup _)
  · intro k
    rw [clavesNIU, List.mem_insertionSort, List.mem_dedup]
  · exact List.sorted_insertionSort _ _

theorem orderedInsert_congr {α : Type} (r s : α → α → Prop)
    [DecidableRel r] [DecidableRel s] (a : α) :
    ∀ l : List α, (∀ b ∈ l, r a b ↔ s a b) →
      l.orderedInsert r a = l.orderedInsert s a := by
  intro l
  induction l with
  | nil => intro _; rfl
  | cons b t ih =>
    intro h
    rw [List.orderedInsert, List.orderedInsert]
    by_cases hr : r a b
    · rw [if_pos hr, if_pos ((h b (List.mem_cons_self b t)).mp hr)]
    · rw [if_neg hr,
        if_neg (fun hs => hr ((h b (List.mem_cons_self b t)).mpr hs)),
        ih (fun c hc => h c (List.mem_cons_of_mem b hc))]

theorem insertionSort_congr_idx :
    ∀ l : List (ℕ × Registro), l.Pairwise (fun a b => a.1 < b.1) →
      List.insertionSort pesaMasIdx l = List.insertionSort pesaMasPar l := by
  intro l
  induction l with
  | nil => intro _; rfl
  | cons a t ih =>
    intro hp
    rw [List.pairwise_cons] at hp
    rw [List.insertionSort, List.insertionSort, ih hp.2]
    apply orderedInsert_congr
    intro b hb
    have hab : a.1 < b.1 := hp.1 b ((List.mem_insertionSort _).mp hb)
    simp only [pesaMasIdx, pesaMasPar]
    constructor
    · rintro (h | ⟨h, -⟩)
      · exact le_of_lt h
      · exact le_of_eq h.symm
    · intro h
      rcases lt_or_eq_of_le h with h | h
      · exact Or.inl h
      · exact Or.inr ⟨h.symm, le_of_lt hab⟩

theorem map_snd_sort (l : List (ℕ × Registro)) :
    (List.insertionSort pesaMasPar l).map Prod.snd =
      List.insertionSort pesaMas (l.map Prod.snd) :=
  List.map_insertionSort pesaMasPar pesaMas Prod.snd l (fun _ _ _ _ => Iff.rfl)

theorem le_fst_enumFrom (l : List Registro) :
    ∀ (n : ℕ) (b : ℕ × Registro), b ∈ l.enumFrom n → n ≤ b.1 := by
  induction l with
  | nil => intro n b hb; simp at hb
  | cons a t ih =>
    intro n b hb
    rw [List.enumFrom] at hb
    rcases List.mem_cons.mp hb with rfl | hb
    · exact le_refl n
    · exact le_trans (Nat.le_succ n) (ih (n + 1) b hb)

theorem pairwise_enumFrom (l : List Registro) :
    ∀ n : ℕ, (l.enumFrom n).Pairwise (fun a b => a.1 < b.1) := by
  induction l with
  | nil => intro n; simp
  | cons a t ih =>
    intro n
    rw [List.enumFrom]
    refine List.Pairwise.cons ?_ (ih (n + 1))
    intro b hb
    exact lt_of_lt_of_le (Nat.lt_succ_self n) (le_fst_enumFrom t (n + 1) b hb)

theorem map_snd_enumFrom (l : List Registro) :
    ∀ n : ℕ, (l.enumFrom n).map Prod.snd = l := by
  induction l with
  | nil => intro n; rfl
  | cons a t ih =>
    intro n
    rw [List.enumFrom, List.map_cons, ih (n + 1)]

/-- C8: on an input of at least ten rows, `nlargest` returns exactly
ten rows, sorted by descending balance, each taken from the input,
and equal to the stable spec-side selection in which ties between
equal balances keep the original row order. -/
theorem topDiezCorrecto (df : List Registro) (h : 10 ≤ df.length) :
    (top10 df).length = 10 ∧
    List.Sorted pesaMas (top10 df) ∧
    (top10 df).Subperm df ∧
    top10 df = top10Estable df := by
  have hperm : List.Perm (List.insertionSort pesaMas df) df :=
    List.perm_insertionSort _ _
  refine ⟨?_, ?_, ?_, ?_⟩
  · rw [top10, List.length_take, hperm.length_eq]
    omega
  · exact List.Pairwise.sublist (List.take_sublist 10 _)
      (List.sorted_insertionSort pesaMas df)
  · exact (List.take_sublist 10 _).subperm.trans hperm.subperm
  · rw [top10, top10Estable, List.enum,
      insertionSort_congr_idx (df.enumFrom 0) (pairwise_enumFrom df 0),
      map_snd_sort, map_snd_enumFrom df 0]

/-- Witness for C8 on the eleven-row table. -/
theorem topDiezCorrectoTestigo :
    10 ≤ dfOnce.length ∧
      ((top10 dfOnce).length = 10 ∧
        List.Sorted pesaMas (top10 dfOnce) ∧
        (top10 dfOnce).Subperm dfOnce ∧
        top10 dfOnce = top10Estable dfOnce) :=
  ⟨by decide, topDiezCorrecto dfOnce (by decide)⟩

end Cartera
